import Mathlib

/-!
Shallow embedding of `tochd.py` (job-orchestration pipeline of the tochd
converter).  Pure fragments of the Python source are translated to Lean
functions; effectful fragments (process spawning, filesystem access,
printing) are translated to functions that return an explicit event trace,
with every externally-determined value (process exit codes, listing output,
file sizes, existence checks) supplied as an oracle argument.  Machine
integers do not occur; Python's arbitrary-precision ints are `Nat`/`Int`
and its `round` on the exact quotient is modelled over `ℚ`.
-/

/-- Semantic file kinds; the keys of `App.types` in the source
(`"sheet"`, `"image"`, `"archive"`).  The Python classifier returns `None`
for an unsupported path; the model returns `Option Kind` with
`none` = unsupported. -/
inductive Kind where
  | sheet
  | image
  | archive
deriving DecidableEq, Repr

/-- A `pathlib.Path`, reduced to the two components the program inspects:
the directory part (`Path.parent`, kept as a plain string) and the final
component (`Path.name`). -/
structure PyPath where
  parent : String
  name : String
deriving DecidableEq, Repr

/-- Index (from the left) of the last `'.'` in a character list, as
`str.rfind('.')` computes it; `none` when there is no dot. -/
def rfindDotAux : List Char → Option Nat
  | [] => none
  | c :: cs =>
    match rfindDotAux cs with
    | some i => some (i + 1)
    | none => if c = '.' then some 0 else none

/-- `pathlib.PurePath.suffix` of a final component: with `i` the index of
the last dot, the suffix is `name[i:]` when `0 < i < len(name) - 1`, and
empty otherwise (so a leading-dot name or a trailing dot yields no
suffix). -/
def pySuffix (name : String) : String :=
  let cs := name.toList
  match rfindDotAux cs with
  | some i => if 0 < i ∧ i + 1 < cs.length then String.mk (cs.drop i) else ""
  | none => ""

/-- `pathlib.PurePath.stem` of a final component: the name with its
`pySuffix` removed. -/
def pyStem (name : String) : String :=
  let cs := name.toList
  match rfindDotAux cs with
  | some i => if 0 < i ∧ i + 1 < cs.length then String.mk (cs.take i) else name
  | none => name

/-- `pathlib.PurePath.suffix` lifted to the path model. -/
def PyPath.suffix (p : PyPath) : String :=
  pySuffix p.name

/-- `Path.as_posix()` for the two-component path model. -/
def asPosix (p : PyPath) : String :=
  p.parent ++ "/" ++ p.name

/-- `str.lstrip(".")`: remove every leading dot. -/
def lstripDot (s : String) : String :=
  String.mk (s.toList.dropWhile (· = '.'))

/-- `str.lower()`, modelled character-wise (the program only ever feeds it
ASCII extensions, where Python's `str.lower` and per-character lowering
agree). -/
def pyToLower (s : String) : String :=
  String.mk (s.toList.map Char.toLower)

/-- The fixed extension table `App.types` of the source, in its dict
order. -/
def types : List (Kind × List String) :=
  [(Kind.sheet, ["gdi", "cue"]),
   (Kind.image, ["iso"]),
   (Kind.archive, ["7z", "zip", "gz", "gzip", "bz2", "bzip2", "rar", "tar"])]

/-- `App.match_type`: if the path has a (pathlib) suffix, lower-case it,
strip the leading dot, and return the first table row containing it;
otherwise `none`. -/
def match_type (name : String) : Option Kind :=
  if pySuffix name ≠ "" then
    (types.find? (fun kv => decide (lstripDot (pyToLower (pySuffix name)) ∈ kv.2))).map
      Prod.fst
  else
    none

/-- The classifier as §4.1 of the spec words it: a case table over the
normalized extension.  Used only to compare against `match_type`. -/
def specClassify (ext : String) : Option Kind :=
  if ext ∈ (["gdi", "cue"] : List String) then some Kind.sheet
  else if ext ∈ (["iso"] : List String) then some Kind.image
  else if ext ∈ (["7z", "zip", "gz", "gzip", "bz2", "bzip2", "rar", "tar"] : List String) then
    some Kind.archive
  else none

/-- The `File` class: input path, computed output path, classified type,
and (for archives) the scoped temporary directory's path.  `tempdir`
stores `TemporaryDirectory.name`. -/
structure File where
  input : PyPath
  output : PyPath
  type : Option Kind
  tempdir : Option String
deriving DecidableEq, Repr

/-- `File.__init__`: the output is `dir_path/input.name` when an output
directory is configured, else the input path, in both cases re-suffixed to
`.chd` (`Path.with_suffix`); the type comes from `match_type`; archives
get a scoped temporary directory whose (randomized) path is the oracle
argument `tempName`. -/
def mkFile (input : PyPath) (dirPath : Option String) (tempName : String) : File :=
  let out : PyPath :=
    match dirPath with
    | some d => ⟨d, input.name⟩
    | none => input
  let t := match_type input.name
  { input := input
    output := ⟨out.parent, pyStem out.name ++ ".chd"⟩
    type := t
    tempdir := if t = some Kind.archive then some tempName else none }

/-- The comprehension `[f.input.parent for f in list_of_files if
f.input.suffix == ".gdi"]`. -/
def gdi_dirs (l : List File) : List String :=
  (l.filter (fun f => decide (f.input.suffix = ".gdi"))).map (fun f => f.input.parent)

/-- `filter_other_in_gdi_dirs`: when some directory holds a `.gdi` entry,
keep only entries outside those directories or themselves `.gdi`-suffixed;
otherwise return the list unchanged. -/
def filter_other_in_gdi_dirs (l : List File) : List File :=
  if gdi_dirs l ≠ [] then
    l.filter (fun f => decide (f.input.parent ∉ gdi_dirs l ∨ f.input.suffix = ".gdi"))
  else l

/-- The comprehension `[f.input.parent for f in list_of_files if f.type ==
"sheet"]`. -/
def sheet_dirs (l : List File) : List String :=
  (l.filter (fun f => decide (f.type = some Kind.sheet))).map (fun f => f.input.parent)

/-- `filter_images_in_sheet_dirs`: when some directory holds a sheet-typed
entry, drop every `.iso`-suffixed entry inside such a directory; otherwise
return the list unchanged. -/
def filter_images_in_sheet_dirs (l : List File) : List File :=
  if sheet_dirs l ≠ [] then
    l.filter (fun f =>
      decide (¬(f.input.parent ∈ sheet_dirs l ∧ f.input.suffix = ".iso")))
  else l

/-- Python's `round` to an integer on an exact rational: nearest integer,
ties to the even one.  (The source divides with `/`, producing a float;
the model keeps the exact quotient.  Near the 750 MB threshold the two
agree: the decision boundary is more than 3e-6 away from every value
reachable from an integer byte count, far above double-precision
error.) -/
def rndHalfEven (q : ℚ) : ℤ :=
  if Int.fract q < 1/2 then ⌊q⌋
  else if 1/2 < Int.fract q then ⌊q⌋ + 1
  else if ⌊q⌋ % 2 = 0 then ⌊q⌋ else ⌊q⌋ + 1

/-- Python's `round(x, 3)`. -/
def pyRound3 (x : ℚ) : ℚ := (rndHalfEven (x * 1000) : ℚ) / 1000

/-- `File.get_size("MB")`: `round(file_size / 1024 ** 2, 3)`, with the
stat'ed byte size supplied as the argument. -/
def get_size_MB (fileSize : ℕ) : ℚ := pyRound3 ((fileSize : ℚ) / 1024 ^ 2)

/-- The `--mode` choices (`cd`, `dvd`, `auto`). -/
inductive Mode where
  | cd
  | dvd
  | auto
deriving DecidableEq, Repr

/-- The sub-command selection of `App.convert_file`: under `auto`,
`createdvd` when `file.get_size("MB") > 750` else `createcd`; `cd` and
`dvd` select their sub-command unconditionally. -/
def chdman_subcommand (mode : Mode) (fileSize : ℕ) : String :=
  match mode with
  | Mode.auto => if 750 < get_size_MB fileSize then "createdvd" else "createcd"
  | Mode.cd => "createcd"
  | Mode.dvd => "createdvd"

/-- The application settings the orchestration core reads (a slice of the
`App` attribute set; paths of the external programs are the resolved
`as_posix` strings). -/
structure Cfg where
  mode : Mode
  chd_processors : ℕ
  no_rename : Bool
  parallel : Bool
  quiet : Bool
  dry_run : Bool
  chdman : String
  p7z : String
deriving DecidableEq, Repr

/-- One observable external effect of the pipeline: a printed job message
(`App.message_job`), a spawned external process (`subprocess.run`), a
best-effort deletion (`Path.unlink(missing_ok=True)`), or a file move
(`shutil.move`). -/
inductive Event where
  | jobMsg (message : String) (path : PyPath) (jobIndex : ℕ)
  | spawn (command : List String)
  | unlink (path : PyPath)
  | move (src dest : PyPath)
deriving DecidableEq, Repr

/-- The `chdman` command line built by `App.convert_file`; the stat'ed
byte size of the input feeds the `auto`-mode decision. -/
def convert_file_command (cfg : Cfg) (file : File) (fileSize : ℕ) : List String :=
  [cfg.chdman, chdman_subcommand cfg.mode fileSize]
  ++ (if cfg.chd_processors ≠ 0 then ["--numprocessors", toString cfg.chd_processors] else [])
  ++ ["--input", asPosix file.input, "--output", asPosix file.output]

/-- `App.convert_file`, with the process exit status `rc` and the
post-run existence of the output file supplied by the environment.
Returns the event trace, the returned exit status, and whether the output
file was unlinked.  The `Started` message and the entire
success-check/unlink/outcome-message block are both guarded by
`if job_index:` in the source. -/
def convert_file (cfg : Cfg) (file : File) (job_index : ℕ) (fileSize : ℕ)
    (rc : ℤ) (outputExists : Bool) : List Event × ℤ × Bool :=
  let started : List Event :=
    if job_index ≠ 0 then [Event.jobMsg "Started" file.input job_index] else []
  let command := convert_file_command cfg file fileSize
  if job_index ≠ 0 then
    if rc = 0 ∧ outputExists = true then
      (started ++ [Event.spawn command, Event.jobMsg "Completed" file.output job_index],
       rc, false)
    else
      (started ++ [Event.spawn command, Event.unlink file.output,
                   Event.jobMsg "Failed" file.output job_index],
       rc, true)
  else
    (started ++ [Event.spawn command], rc, false)

/-- The destination chosen for one converted archive member in
`App.convert_archive`: `archive.output.with_name(file.output.name)` when
`no_rename` is set, else `archive.output`. -/
def member_dest_path (no_rename : Bool) (archive f : File) : PyPath :=
  if no_rename then ⟨archive.output.parent, f.output.name⟩ else archive.output

/-- One iteration of the member loop of `App.convert_archive`: convert
the member with the sentinel job index 0, delete any pre-existing file at
the destination, then on exit status 0 move the converted file there and
report `Completed` if the destination now exists, else report `Failed` —
always under the archive's own job index. -/
def member_step (cfg : Cfg) (archive : File) (job_index : ℕ) (f : File)
    (fileSize : ℕ) (rc : ℤ) (destExists : Bool) : List Event :=
  let cf := convert_file cfg f 0 fileSize rc false
  let dest := member_dest_path cfg.no_rename archive f
  cf.1 ++ [Event.unlink dest] ++
    (if cf.2.1 = 0 then
      [Event.move f.output dest] ++
        (if destExists then [Event.jobMsg "Completed" dest job_index] else [])
    else
      [Event.jobMsg "Failed" dest job_index])

/-- The `7z l -slt -y <archive>` listing command. -/
def list_command (cfg : Cfg) (archive : File) : List String :=
  [cfg.p7z, "l", "-slt", "-y", asPosix archive.input]

/-- The `7z x [-y] [-bd] -o<tempdir> <archive>` extraction command. -/
def extract_command (cfg : Cfg) (archive : File) : List String :=
  [cfg.p7z, "x"]
  ++ (if cfg.quiet || cfg.parallel then ["-y"] else [])
  ++ (if cfg.parallel then ["-bd"] else [])
  ++ ["-o" ++ archive.tempdir.getD "", asPosix archive.input]

/-- Re-join path components with `/` separators. -/
def joinParts : List (List Char) → String
  | [] => ""
  | [p] => String.mk p
  | p :: ps => String.mk p ++ "/" ++ joinParts ps

/-- `Path(tempdir) / Path(entry)`: root a listed member path (which may
contain directory components) at the archive's temp directory. -/
def joinPath (base : String) (entry : String) : PyPath :=
  match (entry.toList.splitOn '/').reverse with
  | [] => ⟨base, ""⟩
  | [n] => ⟨base, String.mk n⟩
  | n :: rest => ⟨base ++ "/" ++ joinParts rest.reverse, String.mk n⟩

/-- `App.listing_from_archive`: on listing exit status 0, every `Path = `
match of the listing output except the first (the archive's self-entry)
becomes a `File` rooted at the temp directory; on nonzero exit status the
result is the empty list. -/
def listing_from_archive (archive : File) (rc : ℤ) (stdoutPaths : List String) :
    List File :=
  if rc = 0 then
    (stdoutPaths.drop 1).map (fun entry =>
      mkFile (joinPath (archive.tempdir.getD "") entry) none "")
  else []

/-- The member filtering of `App.convert_archive`: keep image/sheet
members, run both filter passes, then (the "workaround") drop every
`.iso`-suffixed member outright when any sheet member remains. -/
def archive_filter (l : List File) : List File :=
  let l1 := l.filter (fun f => decide (f.type = some Kind.image ∨ f.type = some Kind.sheet))
  let l2 := filter_other_in_gdi_dirs l1
  let l3 := filter_images_in_sheet_dirs l2
  if l3.filter (fun f => decide (f.type = some Kind.sheet)) ≠ [] then
    l3.filter (fun f => decide (¬ f.input.suffix = ".iso"))
  else l3

/-- Everything the environment decides during one archive job: the
listing process result, the extraction exit status, and per-member-index
the stat'ed size, conversion exit status, and post-move destination
existence. -/
structure ArchOracle where
  list_rc : ℤ
  list_paths : List String
  extract_rc : ℤ
  member_size : ℕ → ℕ
  member_rc : ℕ → ℤ
  dest_exists : ℕ → Bool

/-- `App.convert_archive`: emit `Started`, list and filter the members;
with no member left emit `Failed` and return without touching the temp
directory (the early `return None` precedes the `cleanup()` call);
otherwise extract, convert each member (or emit `Failed` on extraction
failure), and call `archive.tempdir.cleanup()`.  The `Bool` component
records whether `cleanup()` was reached. -/
def convert_archive (cfg : Cfg) (archive : File) (job_index : ℕ) (o : ArchOracle) :
    List Event × Bool :=
  let started : List Event := [Event.jobMsg "Started" archive.input job_index]
  let listEvs : List Event := [Event.spawn (list_command cfg archive)]
  let archlist := archive_filter (listing_from_archive archive o.list_rc o.list_paths)
  if archlist = [] then
    (started ++ listEvs ++ [Event.jobMsg "Failed" archive.output job_index], false)
  else
    let body : List Event :=
      if o.extract_rc = 0 then
        (archlist.enum.map (fun p =>
          member_step cfg archive job_index p.2
            (o.member_size p.1) (o.member_rc p.1) (o.dest_exists p.1))).flatten
      else [Event.jobMsg "Failed" archive.output job_index]
    (started ++ listEvs ++ [Event.spawn (extract_command cfg archive)] ++ body, true)

/-- How `App.convert` handles one queue entry: report `Skipped` inline, or
dispatch it (serially or via the worker pool — the dispatch target is the
same) to `convert_file` or `convert_archive`. -/
inductive Dispatch where
  | skipped (input : PyPath) (jobIndex : ℕ)
  | toFile (f : File) (jobIndex : ℕ)
  | toArchive (f : File) (jobIndex : ℕ)
deriving DecidableEq, Repr

/-- The per-entry branch of the loop in `App.convert`: dry-run → Skipped;
output already exists → Skipped; image/sheet → converter; archive →
archive pipeline; anything else → Skipped. -/
def convert_step (cfg : Cfg) (f : File) (job_index : ℕ) (outputExists : Bool) :
    Dispatch :=
  if cfg.dry_run then Dispatch.skipped f.input job_index
  else if outputExists then Dispatch.skipped f.input job_index
  else if f.type = some Kind.image ∨ f.type = some Kind.sheet then
    Dispatch.toFile f job_index
  else if f.type = some Kind.archive then Dispatch.toArchive f job_index
  else Dispatch.skipped f.input job_index

/-- `App.convert`: enumerate the queue from `start_index`
(`enumerate(file_list, start_index)`), handle each entry, and return the
final `last_index`.  `exists_at j` is the scheduling-time existence check
`file.output.exists()` for the entry with job index `j`. -/
def convert_schedule (cfg : Cfg) (file_list : List File) (start_index : ℕ)
    (exists_at : ℕ → Bool) : List Dispatch × ℕ :=
  ((file_list.enumFrom start_index).map
      (fun p => convert_step cfg p.2 p.1 (exists_at p.1)),
   if file_list = [] then start_index else start_index + file_list.length)

/-- The event trace produced by one dispatched entry (the oracle
arguments feed the dispatched job). -/
def dispatch_events (cfg : Cfg) (d : Dispatch) (fileSize : ℕ) (rc : ℤ)
    (outputExists : Bool) (o : ArchOracle) : List Event :=
  match d with
  | Dispatch.skipped p j => [Event.jobMsg "Skipped" p j]
  | Dispatch.toFile f j => (convert_file cfg f j fileSize rc outputExists).1
  | Dispatch.toArchive f j => (convert_archive cfg f j o).1

/-- The four outcome counters of `App`. -/
structure Stats where
  stats_started : ℕ
  stats_skipped : ℕ
  stats_failed : ℕ
  stats_completed : ℕ
deriving DecidableEq, Repr

/-- The counter initialization in `App.__init__`. -/
def init_stats : Stats := ⟨0, 0, 0, 0⟩

/-- The counter-updating facet of `App.message_job`: the `match message`
block runs only under `if not self.parallel:`. -/
def message_job_stats (parallel : Bool) (message : String) (s : Stats) : Stats :=
  if parallel = false then
    if message = "Started" then { s with stats_started := s.stats_started + 1 }
    else if message = "Skipped" then { s with stats_skipped := s.stats_skipped + 1 }
    else if message = "Failed" then { s with stats_failed := s.stats_failed + 1 }
    else if message = "Completed" then { s with stats_completed := s.stats_completed + 1 }
    else s
  else s

/-- Count the `Failed` job messages in a trace. -/
def countFailed (evs : List Event) : ℕ :=
  (evs.filter (fun e =>
    match e with
    | Event.jobMsg m _ _ => m == "Failed"
    | _ => false)).length

/-- `a.gdi` discovered in directory `/discs` (no configured output dir). -/
def fA_gdi : File := mkFile ⟨"/discs", "a.gdi"⟩ none ""

/-- `a.bin` discovered in directory `/discs`. -/
def fA_bin : File := mkFile ⟨"/discs", "a.bin"⟩ none ""

/-- `a.cue` discovered in directory `/discs`. -/
def fA_cue : File := mkFile ⟨"/discs", "a.cue"⟩ none ""

/-- `b.GDI` (upper-case extension) in directory `/d`. -/
def fB_GDI : File := mkFile ⟨"/d", "b.GDI"⟩ none ""

/-- `a.gdi` (lower-case extension) in directory `/d`. -/
def fD_gdi : File := mkFile ⟨"/d", "a.gdi"⟩ none ""

/-- `x.cue` in directory `/d`. -/
def fX_cue : File := mkFile ⟨"/d", "x.cue"⟩ none ""

/-- `c.ISO` (upper-case extension) in directory `/d`. -/
def fC_ISO : File := mkFile ⟨"/d", "c.ISO"⟩ none ""

/-- `c2.iso` (lower-case extension) in directory `/d`. -/
def fC2_iso : File := mkFile ⟨"/d", "c2.iso"⟩ none ""

/-- `disc.iso` in directory `/discs`. -/
def fDisc_iso : File := mkFile ⟨"/discs", "disc.iso"⟩ none ""

/-- A default serial configuration (cd mode, no flags set). -/
def cfg_serial : Cfg :=
  { mode := Mode.cd, chd_processors := 0, no_rename := false, parallel := false,
    quiet := false, dry_run := false, chdman := "/usr/bin/chdman", p7z := "/usr/bin/7z" }

/-- The serial configuration with dry-run enabled. -/
def cfg_dry : Cfg := { cfg_serial with dry_run := true }

/-- The archive `/r/game.7z`, with scoped temp directory `/r/tmpq1w2e3`. -/
def arch_game : File := mkFile ⟨"/r", "game.7z"⟩ none "/r/tmpq1w2e3"

/-- The member `track.iso` of `arch_game`, rooted at its temp directory
exactly as `listing_from_archive` builds it. -/
def mem_track : File := mkFile (joinPath "/r/tmpq1w2e3" "track.iso") none ""

/-- An archive-job environment whose listing holds only the archive's
self-entry, so the filtered member list is empty. -/
def o_empty : ArchOracle :=
  { list_rc := 0, list_paths := ["game.7z"], extract_rc := 0,
    member_size := fun _ => 0, member_rc := fun _ => 0, dest_exists := fun _ => true }

/-- An archive-job environment whose listing holds one `track.iso` member
and in which every external step succeeds. -/
def o_track : ArchOracle :=
  { list_rc := 0, list_paths := ["game.7z", "track.iso"], extract_rc := 0,
    member_size := fun _ => 0, member_rc := fun _ => 0, dest_exists := fun _ => true }

lemma mem_gdi_dirs {l : List File} {d : String} :
    d ∈ gdi_dirs l ↔ ∃ g ∈ l, g.input.suffix = ".gdi" ∧ g.input.parent = d := by
  simp only [gdi_dirs, List.mem_map, List.mem_filter, decide_eq_true_eq]
  constructor
  · rintro ⟨g, ⟨hg, hs⟩, hp⟩
    exact ⟨g, hg, hs, hp⟩
  · rintro ⟨g, hg, hs, hp⟩
    exact ⟨g, ⟨hg, hs⟩, hp⟩

lemma mem_sheet_dirs {l : List File} {d : String} :
    d ∈ sheet_dirs l ↔ ∃ g ∈ l, g.type = some Kind.sheet ∧ g.input.parent = d := by
  simp only [sheet_dirs, List.mem_map, List.mem_filter, decide_eq_true_eq]
  constructor
  · rintro ⟨g, ⟨hg, hs⟩, hp⟩
    exact ⟨g, hg, hs, hp⟩
  · rintro ⟨g, hg, hs, hp⟩
    exact ⟨g, ⟨hg, hs⟩, hp⟩

lemma mem_filter_other_in_gdi_dirs {l : List File} {f : File} :
    f ∈ filter_other_in_gdi_dirs l ↔
      f ∈ l ∧
        ((¬∃ g ∈ l, g.input.parent = f.input.parent ∧ g.input.suffix = ".gdi") ∨
          f.input.suffix = ".gdi") := by
  unfold filter_other_in_gdi_dirs
  by_cases hg : gdi_dirs l = []
  · simp only [hg, ne_eq, not_true_eq_false, if_false]
    constructor
    · intro hf
      refine ⟨hf, Or.inl ?_⟩
      rintro ⟨g, hgl, hpar, hsuf⟩
      have : f.input.parent ∈ gdi_dirs l := mem_gdi_dirs.mpr ⟨g, hgl, hsuf, hpar⟩
      simp [hg] at this
    · exact fun h => h.1
  · simp only [hg, ne_eq, not_false_eq_true, if_true, List.mem_filter, decide_eq_true_eq]
    constructor
    · rintro ⟨hf, h | h⟩
      · refine ⟨hf, Or.inl ?_⟩
        rintro ⟨g, hgl, hpar, hsuf⟩
        exact h (mem_gdi_dirs.mpr ⟨g, hgl, hsuf, hpar⟩)
      · exact ⟨hf, Or.inr h⟩
    · rintro ⟨hf, h | h⟩
      · refine ⟨hf, Or.inl ?_⟩
        intro hmem
        obtain ⟨g, hgl, hsuf, hpar⟩ := mem_gdi_dirs.mp hmem
        exact h ⟨g, hgl, hpar, hsuf⟩
      · exact ⟨hf, Or.inr h⟩

lemma mem_filter_images_in_sheet_dirs {l : List File} {f : File} :
    f ∈ filter_images_in_sheet_dirs l ↔
      f ∈ l ∧
        ¬((∃ g ∈ l, g.type = some Kind.sheet ∧ g.input.parent = f.input.parent) ∧
          f.input.suffix = ".iso") := by
  unfold filter_images_in_sheet_dirs
  by_cases hs : sheet_dirs l = []
  · simp only [hs, ne_eq, not_true_eq_false, if_false]
    constructor
    · intro hf
      refine ⟨hf, ?_⟩
      rintro ⟨⟨g, hgl, hty, hpar⟩, _⟩
      have : f.input.parent ∈ sheet_dirs l := mem_sheet_dirs.mpr ⟨g, hgl, hty, hpar⟩
      simp [hs] at this
    · exact fun h => h.1
  · simp only [hs, ne_eq, not_false_eq_true, if_true, List.mem_filter, decide_eq_true_eq]
    constructor
    · rintro ⟨hf, h⟩
      refine ⟨hf, ?_⟩
      rintro ⟨⟨g, hgl, hty, hpar⟩, hsuf⟩
      exact h ⟨mem_sheet_dirs.mpr ⟨g, hgl, hty, hpar⟩, hsuf⟩
    · rintro ⟨hf, h⟩
      refine ⟨hf, ?_⟩
      rintro ⟨hmem, hsuf⟩
      obtain ⟨g, hgl, hty, hpar⟩ := mem_sheet_dirs.mp hmem
      exact h ⟨⟨g, hgl, hty, hpar⟩, hsuf⟩

lemma find_types_eq (e : String) :
    (types.find? (fun kv => decide (e ∈ kv.2))).map Prod.fst = specClassify e := by
  by_cases h1 : e ∈ (["gdi", "cue"] : List String)
  · simp [types, List.find?, specClassify, h1]
  · by_cases h2 : e ∈ (["iso"] : List String)
    · simp_all [types, List.find?, specClassify]
    · by_cases h3 : e ∈ (["7z", "zip", "gz", "gzip", "bz2", "bzip2", "rar", "tar"] : List String)
      · simp_all [types, List.find?, specClassify]
      · simp_all [types, List.find?, specClassify]

/-- C8: the classifier `match_type` is exactly the fixed table of §4.1
applied to the lowercased, dot-stripped pathlib suffix: `gdi`/`cue` ↦
sheet, `iso` ↦ image, the eight archive extensions ↦ archive, anything
else (including the empty suffix) ↦ unsupported (`none`). -/
theorem match_type_eq_spec_table (name : String) :
    match_type name = specClassify (lstripDot (pyToLower (pySuffix name))) := by
  unfold match_type
  by_cases h : pySuffix name = ""
  · simp only [h, ne_eq, not_true_eq_false, if_false]
    simp [pyToLower, lstripDot, specClassify]
  · simp only [ne_eq, h, not_false_eq_true, if_true]
    exact find_types_eq _

/-- C7: after filter pass 1, an entry is retained iff it was in the batch
and either no entry of the batch in its directory carries the `.gdi`
suffix or the entry itself does; in particular `[a.gdi, a.bin, a.cue]` in
one directory filters to `[a.gdi]`. -/
theorem filter_pass1_retention :
    (∀ (l : List File) (f : File),
        f ∈ filter_other_in_gdi_dirs l ↔
          f ∈ l ∧
            ((¬∃ g ∈ l, g.input.parent = f.input.parent ∧ g.input.suffix = ".gdi") ∨
              f.input.suffix = ".gdi"))
    ∧ filter_other_in_gdi_dirs [fA_gdi, fA_bin, fA_cue] = [fA_gdi] :=
  ⟨fun _ _ => mem_filter_other_in_gdi_dirs, by decide⟩

/-- C9: classification is case-insensitive but both filter passes compare
literal lowercase suffixes.  A `.GDI` file classifies as sheet, yet (a) it
is dropped by pass 1 when a literal `.gdi` sibling exists, (b) it does not
make its directory a gdi-directory (so `[b.GDI, x.cue]` passes through
unchanged), and (c) pass 2 keeps every entry whose exact suffix is not
`.iso`, so a `.ISO` image sharing a directory with a sheet is retained. -/
theorem case_sensitivity_of_filters :
    (∀ (l : List File) (f : File), f ∈ l → f.input.suffix = ".GDI" →
        (∃ g ∈ l, g.input.parent = f.input.parent ∧ g.input.suffix = ".gdi") →
        f ∉ filter_other_in_gdi_dirs l)
    ∧ (∀ (l : List File) (f : File), f ∈ l → f.input.suffix ≠ ".iso" →
        f ∈ filter_images_in_sheet_dirs l)
    ∧ fB_GDI.type = some Kind.sheet
    ∧ filter_other_in_gdi_dirs [fB_GDI, fX_cue] = [fB_GDI, fX_cue]
    ∧ filter_other_in_gdi_dirs [fD_gdi, fB_GDI] = [fD_gdi]
    ∧ fC_ISO.type = some Kind.image
    ∧ filter_images_in_sheet_dirs [fX_cue, fC_ISO, fC2_iso] = [fX_cue, fC_ISO] := by
  refine ⟨?_, ?_, by decide, by decide, by decide, by decide, by decide⟩
  · intro l f hf hsuf hex hmem
    rcases (mem_filter_other_in_gdi_dirs.mp hmem).2 with h | h
    · exact h hex
    · rw [hsuf] at h
      exact absurd h (by decide)
  · intro l f hf hne
    refine mem_filter_images_in_sheet_dirs.mpr ⟨hf, ?_⟩
    rintro ⟨_, hs⟩
    exact hne hs

/-- Witness for C9: the two quantified parts instantiated on the concrete
batches. -/
theorem case_sensitivity_of_filters_witness :
    fB_GDI ∉ filter_other_in_gdi_dirs [fD_gdi, fB_GDI]
    ∧ fC_ISO ∈ filter_images_in_sheet_dirs [fX_cue, fC_ISO] :=
  ⟨case_sensitivity_of_filters.1 [fD_gdi, fB_GDI] fB_GDI (by decide) (by decide)
      ⟨fD_gdi, by decide, by decide, by decide⟩,
   case_sensitivity_of_filters.2.1 [fX_cue, fC_ISO] fC_ISO (by decide) (by decide)⟩

lemma rndHalfEven_le (q : ℚ) (z : ℤ) (h : q < (z : ℚ) + 1/2) :
    rndHalfEven q ≤ z := by
  have hfl : ⌊q⌋ ≤ z := by
    have h1 : q < ((z + 1 : ℤ) : ℚ) := by push_cast; linarith
    have := Int.floor_lt.mpr h1
    omega
  have hq : (⌊q⌋ : ℚ) + Int.fract q = q := Int.floor_add_fract q
  unfold rndHalfEven
  split_ifs with h1 h2 h3
  · exact hfl
  · rcases lt_or_eq_of_le hfl with hlt | heq
    · omega
    · exfalso
      rw [heq] at hq
      linarith
  · exact hfl
  · rcases lt_or_eq_of_le hfl with hlt | heq
    · omega
    · exfalso
      have ht : Int.fract q = 1/2 := le_antisymm (not_lt.mp h2) (not_lt.mp h1)
      rw [heq, ht] at hq
      linarith

lemma lt_rndHalfEven (q : ℚ) (z : ℤ) (h : (z : ℚ) + 1/2 < q) :
    z < rndHalfEven q := by
  have hfl : z ≤ ⌊q⌋ := Int.le_floor.mpr (by linarith)
  have hq : (⌊q⌋ : ℚ) + Int.fract q = q := Int.floor_add_fract q
  unfold rndHalfEven
  split_ifs with h1 h2 h3
  · rcases lt_or_eq_of_le hfl with hlt | heq
    · exact hlt
    · exfalso
      rw [← heq] at hq
      linarith
  · omega
  · rcases lt_or_eq_of_le hfl with hlt | heq
    · exact hlt
    · exfalso
      have ht : Int.fract q = 1/2 := le_antisymm (not_lt.mp h2) (not_lt.mp h1)
      rw [← heq, ht] at hq
      linarith
  · omega

lemma auto_threshold (b : ℕ) : 750 < get_size_MB b ↔ 786432525 ≤ b := by
  unfold get_size_MB pyRound3
  rw [lt_div_iff₀ (by norm_num : (0:ℚ) < 1000)]
  constructor
  · intro h
    by_contra hb
    push_neg at hb
    have hble : (b : ℚ) ≤ 786432524 := by exact_mod_cast Nat.le_of_lt_succ hb
    have hx : ((b : ℚ) / 1024 ^ 2) * 1000 < ((750000 : ℤ) : ℚ) + 1/2 := by
      rw [div_mul_eq_mul_div, div_lt_iff₀ (by norm_num : (0:ℚ) < 1024 ^ 2)]
      push_cast
      nlinarith
    have hle := rndHalfEven_le _ _ hx
    have hle' : (rndHalfEven ((b : ℚ) / 1024 ^ 2 * 1000) : ℚ) ≤ 750000 := by
      exact_mod_cast hle
    linarith
  · intro hb
    have hbge : (786432525 : ℚ) ≤ (b : ℚ) := by exact_mod_cast hb
    have hx : ((750000 : ℤ) : ℚ) + 1/2 < ((b : ℚ) / 1024 ^ 2) * 1000 := by
      rw [div_mul_eq_mul_div, lt_div_iff₀ (by norm_num : (0:ℚ) < 1024 ^ 2)]
      push_cast
      nlinarith
    have hlt := lt_rndHalfEven _ _ hx
    have hlt' : (750000 : ℚ) < (rndHalfEven ((b : ℚ) / 1024 ^ 2 * 1000) : ℚ) := by
      exact_mod_cast hlt
    linarith

/-- C3 counterexample: an image one byte larger than 750 MB
(786432001 bytes) still selects the `cd` sub-command, because `get_size`
rounds the megabyte quotient to 3 decimals before the comparison. -/
theorem auto_mode_one_byte_counterexample :
    750 * 1024 ^ 2 < 786432001 ∧ chdman_subcommand Mode.auto 786432001 = "createcd" := by
  have h : ¬ (750 < get_size_MB 786432001) := by
    rw [auto_threshold]
    decide
  exact ⟨by norm_num, by simp [chdman_subcommand, h]⟩

/-- C3 amended: under auto mode the `dvd` sub-command is selected exactly
when the 3-decimal-rounded megabyte size exceeds 750, which happens iff
the byte size is at least 786432525 (750 MB + 525 bytes); in particular
both an image of exactly 750 MB and one a single byte larger use `cd`. -/
theorem auto_mode_threshold_exact (b : ℕ) :
    chdman_subcommand Mode.auto b = if 786432525 ≤ b then "createdvd" else "createcd" := by
  unfold chdman_subcommand
  by_cases h : 786432525 ≤ b
  · rw [if_pos ((auto_threshold b).mpr h), if_pos h]
  · rw [if_neg (fun hc => h ((auto_threshold b).mp hc)), if_neg h]

lemma convert_archive_empty_shape (cfg : Cfg) (archive : File) (j : ℕ) (o : ArchOracle)
    (h : archive_filter (listing_from_archive archive o.list_rc o.list_paths) = []) :
    convert_archive cfg archive j o =
      ([Event.jobMsg "Started" archive.input j,
        Event.spawn (list_command cfg archive),
        Event.jobMsg "Failed" archive.output j],
       false) := by
  simp only [convert_archive]
  rw [if_pos h]
  rfl

lemma convert_archive_shape (cfg : Cfg) (archive : File) (j : ℕ) (o : ArchOracle)
    (hne : archive_filter (listing_from_archive archive o.list_rc o.list_paths) ≠ [])
    (hx : o.extract_rc = 0) :
    convert_archive cfg archive j o =
      ([Event.jobMsg "Started" archive.input j]
        ++ [Event.spawn (list_command cfg archive)]
        ++ [Event.spawn (extract_command cfg archive)]
        ++ ((archive_filter (listing_from_archive archive o.list_rc o.list_paths)).enum.map
              (fun p => member_step cfg archive j p.2
                (o.member_size p.1) (o.member_rc p.1) (o.dest_exists p.1))).flatten,
       true) := by
  simp only [convert_archive]
  rw [if_neg hne, if_pos hx]

/-- C1 counterexample: for archive `/r/game.7z` with member `track.iso`,
`no_rename = true` yields destination `/r/track.chd` (output directory
plus the member's converted name), not the archive's own output path
`/r/game.chd` as the claim states; `no_rename = false` (the default)
yields the archive's own output path, not the member's name. -/
theorem archive_dest_swap_counterexample :
    member_dest_path true arch_game mem_track = ⟨"/r", "track.chd"⟩
    ∧ member_dest_path true arch_game mem_track ≠ arch_game.output
    ∧ member_dest_path false arch_game mem_track = arch_game.output
    ∧ arch_game.output = ⟨"/r", "game.chd"⟩ := by decide

/-- C1 amended: for every member the Archive Pipeline converts, the
destination of the move is the archive's output directory joined with the
member's own converted filename when `noRename` is true, and the
archive's own output path when `noRename` is false (the default, so
multiple members collide onto one name). -/
theorem archive_member_destination (cfg : Cfg) (archive : File) (job_index : ℕ)
    (o : ArchOracle) (i : ℕ) (m : File)
    (hm : (i, m) ∈ (archive_filter (listing_from_archive archive o.list_rc o.list_paths)).enum)
    (hx : o.extract_rc = 0) (hrc : o.member_rc i = 0) :
    Event.move m.output
        (if cfg.no_rename then ⟨archive.output.parent, m.output.name⟩ else archive.output)
      ∈ (convert_archive cfg archive job_index o).1 := by
  have hne : archive_filter (listing_from_archive archive o.list_rc o.list_paths) ≠ [] := by
    intro h
    rw [h] at hm
    simp at hm
  have h21 : (convert_file cfg m 0 (o.member_size i) (o.member_rc i) false).2.1 = 0 := by
    have hr : (convert_file cfg m 0 (o.member_size i) (o.member_rc i) false).2.1
        = o.member_rc i := rfl
    rw [hr, hrc]
  have hstep : Event.move m.output
      (if cfg.no_rename then (⟨archive.output.parent, m.output.name⟩ : PyPath) else archive.output)
      ∈ member_step cfg archive job_index m (o.member_size i) (o.member_rc i) (o.dest_exists i) := by
    simp [member_step, h21, member_dest_path]
  rw [convert_archive_shape cfg archive job_index o hne hx]
  simp only [List.mem_append, List.mem_flatten]
  exact Or.inr ⟨_, List.mem_map_of_mem _ hm, hstep⟩

set_option maxHeartbeats 2000000 in
/-- Witness for C1: in the default configuration the single member
`track.iso` of `game.7z` is moved to the archive's own output path
`/r/game.chd`. -/
theorem archive_member_destination_witness :
    Event.move mem_track.output arch_game.output
      ∈ (convert_archive cfg_serial arch_game 1 o_track).1 :=
  archive_member_destination cfg_serial arch_game 1 o_track 0 mem_track (by decide) rfl rfl

set_option maxHeartbeats 1000000 in
/-- C2: the code violates the claim.  On the path where the filtered
member list is empty the archive job returns before
`archive.tempdir.cleanup()` (second component `false`), while on the
nonempty path cleanup is reached (`true`). -/
theorem tempdir_cleanup_skipped_on_empty_list :
    (convert_archive cfg_serial arch_game 1 o_empty).2 = false
    ∧ (convert_archive cfg_serial arch_game 1 o_track).2 = true := by decide

/-- C4 counterexample: with the sentinel `job_index = 0` and a failing
exit status (`rc = 1`), `convert_file` performs no unlink of the output,
emits no `Failed` (and no `Started`) message, and merely returns the exit
status — so the sentinel suppresses the success check and the
partial-output deletion too, not only the `Started` message. -/
theorem convert_file_sentinel_counterexample :
    (convert_file cfg_serial fDisc_iso 0 500 1 true).2.1 = 1
    ∧ (convert_file cfg_serial fDisc_iso 0 500 1 true).2.2 = false
    ∧ Event.jobMsg "Failed" fDisc_iso.output 0 ∉ (convert_file cfg_serial fDisc_iso 0 500 1 true).1
    ∧ Event.unlink fDisc_iso.output ∉ (convert_file cfg_serial fDisc_iso 0 500 1 true).1
    ∧ Event.jobMsg "Started" fDisc_iso.input 0 ∉ (convert_file cfg_serial fDisc_iso 0 500 1 true).1 := by
  decide

/-- C4 amended: for a nonzero job index, `convert_file` reports
`Completed` iff the process exited 0 and the output exists, and otherwise
unlinks the partial output and reports `Failed`; for the sentinel job
index 0 it only spawns the process and returns the exit status, with no
success check, no deletion, and no messages at all. -/
theorem convert_file_outcome_semantics (cfg : Cfg) (f : File) (j : ℕ) (size : ℕ)
    (rc : ℤ) (ex : Bool) :
    (convert_file cfg f j size rc ex).2.1 = rc
    ∧ (j ≠ 0 →
        ((Event.jobMsg "Completed" f.output j ∈ (convert_file cfg f j size rc ex).1)
            ↔ (rc = 0 ∧ ex = true))
        ∧ ((convert_file cfg f j size rc ex).2.2 = true ↔ ¬(rc = 0 ∧ ex = true))
        ∧ ((Event.unlink f.output ∈ (convert_file cfg f j size rc ex).1)
            ↔ ¬(rc = 0 ∧ ex = true))
        ∧ ((Event.jobMsg "Failed" f.output j ∈ (convert_file cfg f j size rc ex).1)
            ↔ ¬(rc = 0 ∧ ex = true)))
    ∧ (j = 0 →
        (convert_file cfg f j size rc ex).1 = [Event.spawn (convert_file_command cfg f size)]
        ∧ (convert_file cfg f j size rc ex).2.2 = false) := by
  by_cases hj : j = 0
  · refine ⟨?_, fun h => absurd hj h, fun _ => ⟨?_, ?_⟩⟩
    · simp [convert_file, hj]
    · simp [convert_file, hj]
    · simp [convert_file, hj]
  · by_cases hr : rc = 0 ∧ ex = true
    · refine ⟨by simp [convert_file, hj, hr], fun _ => ⟨?_, ?_, ?_, ?_⟩, fun h => absurd h hj⟩
      · simp [convert_file, hj, hr]
      · simp [convert_file, hj, hr]
      · simp [convert_file, hj, hr]
      · simp [convert_file, hj, hr]
    · refine ⟨by simp [convert_file, hj, hr], fun _ => ⟨?_, ?_, ?_, ?_⟩, fun h => absurd h hj⟩
      · simp [convert_file, hj, hr]
      · simp [convert_file, hj, hr]
      · simp [convert_file, hj, hr]
      · simp [convert_file, hj, hr]

/-- Witness for C4: a successful non-sentinel conversion reports
`Completed`. -/
theorem convert_file_outcome_semantics_witness :
    Event.jobMsg "Completed" fDisc_iso.output 1
      ∈ (convert_file cfg_serial fDisc_iso 1 500 0 true).1 :=
  ((convert_file_outcome_semantics cfg_serial fDisc_iso 1 500 0 true).2.1
      (by decide)).1.mpr ⟨rfl, rfl⟩

/-- C5: an archive job whose filtered member list is empty emits exactly
one `Failed` outcome and spawns no process besides the listing command
(no extraction); a nonzero listing exit status yields an empty member
list and hence the identical trace. -/
theorem empty_archlist_single_failed :
    (∀ (cfg : Cfg) (archive : File) (j : ℕ) (o : ArchOracle),
        archive_filter (listing_from_archive archive o.list_rc o.list_paths) = [] →
          (convert_archive cfg archive j o).1 =
            [Event.jobMsg "Started" archive.input j,
             Event.spawn (list_command cfg archive),
             Event.jobMsg "Failed" archive.output j]
          ∧ countFailed (convert_archive cfg archive j o).1 = 1
          ∧ ∀ c, Event.spawn c ∈ (convert_archive cfg archive j o).1 →
              c = list_command cfg archive)
    ∧ (∀ (archive : File) (rc : ℤ) (ps : List String), rc ≠ 0 →
        listing_from_archive archive rc ps = [])
    ∧ (∀ (cfg : Cfg) (archive : File) (j : ℕ) (o : ArchOracle), o.list_rc ≠ 0 →
        (convert_archive cfg archive j o).1 =
          [Event.jobMsg "Started" archive.input j,
           Event.spawn (list_command cfg archive),
           Event.jobMsg "Failed" archive.output j]) := by
  have hlist : ∀ (archive : File) (rc : ℤ) (ps : List String), rc ≠ 0 →
      listing_from_archive archive rc ps = [] := by
    intro archive rc ps h
    simp [listing_from_archive, h]
  have hmain : ∀ (cfg : Cfg) (archive : File) (j : ℕ) (o : ArchOracle),
      archive_filter (listing_from_archive archive o.list_rc o.list_paths) = [] →
      (convert_archive cfg archive j o).1 =
        [Event.jobMsg "Started" archive.input j,
         Event.spawn (list_command cfg archive),
         Event.jobMsg "Failed" archive.output j] := by
    intro cfg archive j o h
    rw [convert_archive_empty_shape cfg archive j o h]
  refine ⟨fun cfg archive j o h => ⟨hmain cfg archive j o h, ?_, ?_⟩, hlist, ?_⟩
  · rw [hmain cfg archive j o h]
    simp [countFailed]
  · intro c hc
    rw [hmain cfg archive j o h] at hc
    simp at hc
    exact hc
  · intro cfg archive j o h
    apply hmain
    rw [hlist archive o.list_rc o.list_paths h]
    rfl

/-- Witness for C5: the empty-member archive job emits Started, the
listing spawn, and one Failed; a listing exit status of 2 yields an empty
member list. -/
theorem empty_archlist_single_failed_witness :
    (convert_archive cfg_serial arch_game 1 o_empty).1 =
      [Event.jobMsg "Started" arch_game.input 1,
       Event.spawn (list_command cfg_serial arch_game),
       Event.jobMsg "Failed" arch_game.output 1]
    ∧ listing_from_archive arch_game 2 ["x"] = [] :=
  ⟨(empty_archlist_single_failed.1 cfg_serial arch_game 1 o_empty (by decide)).1,
   empty_archlist_single_failed.2.1 arch_game 2 ["x"] (by decide)⟩

/-- C6: a queue entry scheduled while dry-run is active or while its
output path already exists is dispatched as `Skipped`; its whole
contribution to the trace is one `Skipped` message and contains no
spawned process. -/
theorem scheduler_skip_no_spawn (cfg : Cfg) (l : List File) (s : ℕ)
    (exists_at : ℕ → Bool) (i : ℕ) (f : File) (size : ℕ) (rc : ℤ) (ex2 : Bool)
    (o : ArchOracle)
    (hm : (i, f) ∈ l.enumFrom s)
    (hskip : cfg.dry_run = true ∨ exists_at i = true) :
    Dispatch.skipped f.input i ∈ (convert_schedule cfg l s exists_at).1
    ∧ dispatch_events cfg (Dispatch.skipped f.input i) size rc ex2 o =
        [Event.jobMsg "Skipped" f.input i]
    ∧ ∀ c, Event.spawn c ∉ dispatch_events cfg (Dispatch.skipped f.input i) size rc ex2 o := by
  have hstep : convert_step cfg f i (exists_at i) = Dispatch.skipped f.input i := by
    rcases hskip with h | h
    · simp [convert_step, h]
    · by_cases hd : cfg.dry_run
      · simp [convert_step, hd]
      · simp [convert_step, hd, h]
  refine ⟨?_, rfl, ?_⟩
  · have hmem : convert_step cfg f i (exists_at i) ∈
        (l.enumFrom s).map (fun p : ℕ × File => convert_step cfg p.2 p.1 (exists_at p.1)) :=
      List.mem_map_of_mem (fun p : ℕ × File => convert_step cfg p.2 p.1 (exists_at p.1)) hm
    rw [hstep] at hmem
    exact hmem
  · intro c hc
    simp [dispatch_events] at hc

/-- Witness for C6: under dry-run, the single queued `c2.iso` is
dispatched as Skipped. -/
theorem scheduler_skip_no_spawn_witness :
    Dispatch.skipped fC2_iso.input 1 ∈
      (convert_schedule cfg_dry [fC2_iso] 1 (fun _ => false)).1 :=
  (scheduler_skip_no_spawn cfg_dry [fC2_iso] 1 (fun _ => false) 1 fC2_iso 0 0 false
      o_empty (by decide) (Or.inl rfl)).1

/-- C10: under parallel mode no outcome message touches the counters:
folding any sequence of `message_job` calls over the initial stats leaves
all four counters at zero. -/
theorem parallel_stats_frozen (msgs : List String) :
    (msgs.foldl (fun s m => message_job_stats true m s) init_stats) = init_stats
    ∧ (msgs.foldl (fun s m => message_job_stats true m s) init_stats).stats_started = 0
    ∧ (msgs.foldl (fun s m => message_job_stats true m s) init_stats).stats_skipped = 0
    ∧ (msgs.foldl (fun s m => message_job_stats true m s) init_stats).stats_failed = 0
    ∧ (msgs.foldl (fun s m => message_job_stats true m s) init_stats).stats_completed = 0 := by
  have hfold : (msgs.foldl (fun s m => message_job_stats true m s) init_stats) = init_stats := by
    have hstep : ∀ m s, message_job_stats true m s = s := by
      intro m s
      simp [message_job_stats]
    induction msgs with
    | nil => rfl
    | cons m ms ih => rw [List.foldl_cons, hstep]; exact ih
  exact ⟨hfold, by rw [hfold]; rfl, by rw [hfold]; rfl, by rw [hfold]; rfl, by rw [hfold]; rfl⟩
